import Mathlib

/-!
Verification of the goth Yahoo OAuth2 provider (providers/yahoo/yahoo.go).

The Go source is shallowly embedded: pure helpers become Lean functions, the
HTTP transport and the oauth2 token source become explicit oracle parameters,
and the standard library JSON codec (encoding/json) is modelled by an
executable JSON printer/parser pair over character lists.  `time.Time`
values are abstracted as integer timestamps; their JSON form is modelled as
a JSON number (the RFC3339 text layer of the Go time package is not
re-implemented).
-/

namespace GothYahoo

/-! ## JSON syntax trees

`Json.str` stores the decoded character content of a string literal.
`Json.num` stores the lexeme split into sign, integer digits and the
remaining (fraction/exponent) characters, mirroring what the scanner of
encoding/json accepts. -/

inductive Json where
  | null : Json
  | bool (b : Bool) : Json
  | num (neg : Bool) (intDigits : List Char) (tail : List Char) : Json
  | str (content : List Char) : Json
  | arr (elems : List Json) : Json
  | obj (members : List (List Char × Json)) : Json

/-! ## Characters, digits and hexadecimal -/

def digitChar (n : Nat) : Char := Char.ofNat (48 + n)

def charDigit (c : Char) : Option Nat :=
  if 48 ≤ c.toNat ∧ c.toNat ≤ 57 then some (c.toNat - 48) else none

def isDigit (c : Char) : Bool := 48 ≤ c.toNat && c.toNat ≤ 57

/-- Lower-case hexadecimal digit, as emitted by encoding/json escapes. -/
def hexDigit (n : Nat) : Char :=
  if n < 10 then Char.ofNat (48 + n) else Char.ofNat (87 + n)

/-- Upper-case hexadecimal digit, as emitted by net/url percent escaping. -/
def hexDigitUp (n : Nat) : Char :=
  if n < 10 then Char.ofNat (48 + n) else Char.ofNat (55 + n)

/-- Value of a hexadecimal digit character (either case), as accepted by the
JSON scanner and by net/url unescaping. -/
def hexVal (c : Char) : Option Nat :=
  if 48 ≤ c.toNat ∧ c.toNat ≤ 57 then some (c.toNat - 48)
  else if 97 ≤ c.toNat ∧ c.toNat ≤ 102 then some (c.toNat - 87)
  else if 65 ≤ c.toNat ∧ c.toNat ≤ 70 then some (c.toNat - 55)
  else none

/-! ## Decimal printing (strconv/itoa as used by json.Marshal) -/

/-- Big-endian decimal digits of a natural number. -/
def natChars (n : Nat) : List Char :=
  if n = 0 then [Char.ofNat 48] else ((Nat.digits 10 n).map digitChar).reverse

/-- Big-endian decimal digits of an integer, with a leading minus sign when
negative. -/
def intChars (i : Int) : List Char :=
  if i < 0 then Char.ofNat 45 :: natChars i.natAbs else natChars i.toNat

/-- Horner evaluation of big-endian decimal digit characters. -/
def natOfDigits (cs : List Char) : Nat :=
  cs.foldl (fun acc c => acc * 10 + (c.toNat - 48)) 0

/-! ## String escaping of encoding/json

json.Marshal escapes the quote, the backslash, the three common control
characters by their short forms, other control characters as lower-case
unicode escapes, the HTML-sensitive characters as unicode escapes
(HTML escaping is on for json.Marshal), and U+2028/U+2029. -/

def escapeChar (c : Char) : List Char :=
  if c = Char.ofNat 34 then [Char.ofNat 92, Char.ofNat 34]
  else if c = Char.ofNat 92 then [Char.ofNat 92, Char.ofNat 92]
  else if c = Char.ofNat 10 then [Char.ofNat 92, Char.ofNat 110]
  else if c = Char.ofNat 13 then [Char.ofNat 92, Char.ofNat 114]
  else if c = Char.ofNat 9 then [Char.ofNat 92, Char.ofNat 116]
  else if c.toNat < 32 then
    [Char.ofNat 92, Char.ofNat 117, Char.ofNat 48, Char.ofNat 48,
     hexDigit (c.toNat / 16), hexDigit (c.toNat % 16)]
  else if c = Char.ofNat 60 ∨ c = Char.ofNat 62 ∨ c = Char.ofNat 38 then
    [Char.ofNat 92, Char.ofNat 117, Char.ofNat 48, Char.ofNat 48,
     hexDigit (c.toNat / 16), hexDigit (c.toNat % 16)]
  else if c.toNat = 8232 ∨ c.toNat = 8233 then
    [Char.ofNat 92, Char.ofNat 117, Char.ofNat 50, Char.ofNat 48,
     Char.ofNat 50, hexDigit (c.toNat % 16)]
  else [c]

def escChars (cs : List Char) : List Char := (cs.map escapeChar).flatten

/-- A complete JSON string literal for the given (unescaped) content. -/
def strLit (cs : List Char) : List Char :=
  Char.ofNat 34 :: escChars cs ++ [Char.ofNat 34]

/-! ## The JSON scanner of encoding/json, as a recursive descent parser -/

def isWs (c : Char) : Bool :=
  c = Char.ofNat 32 || c = Char.ofNat 9 || c = Char.ofNat 10 || c = Char.ofNat 13

def skipWs : List Char → List Char
  | [] => []
  | c :: cs => if isWs c then skipWs cs else c :: cs

/-- Scan the body of a string literal, the opening quote already consumed.
Returns the decoded content and the input following the closing quote.
Unpaired-surrogate unicode escapes decode to U+FFFD; surrogate pairing is
not modelled because the printer never emits escapes in that range. -/
def parseStrBody : List Char → Option (List Char × List Char)
  | [] => none
  | c :: cs =>
    if c = Char.ofNat 34 then some ([], cs)
    else if c = Char.ofNat 92 then
      match cs with
      | [] => none
      | e :: cs2 =>
        if e = Char.ofNat 34 then
          (parseStrBody cs2).map (fun p => (Char.ofNat 34 :: p.1, p.2))
        else if e = Char.ofNat 92 then
          (parseStrBody cs2).map (fun p => (Char.ofNat 92 :: p.1, p.2))
        else if e = Char.ofNat 47 then
          (parseStrBody cs2).map (fun p => (Char.ofNat 47 :: p.1, p.2))
        else if e = Char.ofNat 98 then
          (parseStrBody cs2).map (fun p => (Char.ofNat 8 :: p.1, p.2))
        else if e = Char.ofNat 102 then
          (parseStrBody cs2).map (fun p => (Char.ofNat 12 :: p.1, p.2))
        else if e = Char.ofNat 110 then
          (parseStrBody cs2).map (fun p => (Char.ofNat 10 :: p.1, p.2))
        else if e = Char.ofNat 114 then
          (parseStrBody cs2).map (fun p => (Char.ofNat 13 :: p.1, p.2))
        else if e = Char.ofNat 116 then
          (parseStrBody cs2).map (fun p => (Char.ofNat 9 :: p.1, p.2))
        else if e = Char.ofNat 117 then
          match cs2 with
          | h1 :: h2 :: h3 :: h4 :: cs3 =>
            match hexVal h1, hexVal h2, hexVal h3, hexVal h4 with
            | some a, some b, some c1, some d =>
              let code := ((a * 16 + b) * 16 + c1) * 16 + d
              let ch := if 55296 ≤ code ∧ code < 57344
                        then Char.ofNat 65533 else Char.ofNat code
              (parseStrBody cs3).map (fun p => (ch :: p.1, p.2))
            | _, _, _, _ => none
          | _ => none
        else none
    else if c.toNat < 32 then none
    else (parseStrBody cs).map (fun p => (c :: p.1, p.2))

/-- Scan the digits of the integer part of a number.  The scanner refuses a
leading zero followed by further digits. -/
def parseIntDigits (cs : List Char) : Option (List Char × List Char) :=
  match cs.takeWhile isDigit, cs.dropWhile isDigit with
  | [], _ => none
  | d :: ds, rest =>
    if d = Char.ofNat 48 ∧ ds ≠ [] then none else some (d :: ds, rest)

/-- Scan an optional fraction part. -/
def parseFrac (cs : List Char) : Option (List Char × List Char) :=
  match cs with
  | c :: cs2 =>
    if c = Char.ofNat 46 then
      match cs2.takeWhile isDigit, cs2.dropWhile isDigit with
      | [], _ => none
      | d :: ds, rest => some (c :: d :: ds, rest)
    else some ([], cs)
  | [] => some ([], [])

/-- Scan an optional exponent part. -/
def parseExp (cs : List Char) : Option (List Char × List Char) :=
  match cs with
  | c :: cs2 =>
    if c = Char.ofNat 101 ∨ c = Char.ofNat 69 then
      let (sgn, cs3) :=
        match cs2 with
        | s :: cs3 =>
          if s = Char.ofNat 43 ∨ s = Char.ofNat 45 then ([s], cs3) else ([], s :: cs3)
        | [] => ([], [])
      match cs3.takeWhile isDigit, cs3.dropWhile isDigit with
      | [], _ => none
      | d :: ds, rest => some (c :: sgn ++ d :: ds, rest)
    else some ([], cs)
  | [] => some ([], [])

/-- Scan a number token.  The sign must already have been recognised by the
caller; `neg` records it. -/
def parseNum (neg : Bool) (cs : List Char) : Option (Json × List Char) :=
  match parseIntDigits cs with
  | none => none
  | some (ip, rest1) =>
    match parseFrac rest1 with
    | none => none
    | some (fp, rest2) =>
      match parseExp rest2 with
      | none => none
      | some (ep, rest3) => some (Json.num neg ip (fp ++ ep), rest3)

/-- Consume an expected keyword (true/false/null). -/
def parseLit (kw : List Char) (cs : List Char) : Option (List Char) :=
  match kw, cs with
  | [], rest => some rest
  | k :: ks, c :: rest => if c = k then parseLit ks rest else none
  | _ :: _, [] => none

mutual

/-- One JSON value.  The fuel bounds the recursion; every recursive call
uses strictly smaller fuel, and `jsonDecodeVal` supplies fuel that is always
sufficient for an input of the given length. -/
def parseValue : Nat → List Char → Option (Json × List Char)
  | 0, _ => none
  | fuel + 1, cs =>
    match skipWs cs with
    | [] => none
    | c :: rest =>
      if c = Char.ofNat 34 then
        (parseStrBody rest).map (fun p => (Json.str p.1, p.2))
      else if c = Char.ofNat 123 then
        parseMembers fuel (skipWs rest) true
      else if c = Char.ofNat 91 then
        parseElems fuel (skipWs rest) true
      else if c = Char.ofNat 45 then parseNum true rest
      else if isDigit c then parseNum false (c :: rest)
      else if c = Char.ofNat 116 then
        (parseLit [Char.ofNat 114, Char.ofNat 117, Char.ofNat 101] rest).map
          (fun r => (Json.bool true, r))
      else if c = Char.ofNat 102 then
        (parseLit [Char.ofNat 97, Char.ofNat 108, Char.ofNat 115, Char.ofNat 101] rest).map
          (fun r => (Json.bool false, r))
      else if c = Char.ofNat 110 then
        (parseLit [Char.ofNat 117, Char.ofNat 108, Char.ofNat 108] rest).map
          (fun r => (Json.null, r))
      else none

/-- The members of an object, the opening brace already consumed and the
whitespace after it skipped.  `first` is true before the first member. -/
def parseMembers : Nat → List Char → Bool → Option (Json × List Char)
  | 0, _, _ => none
  | fuel + 1, cs, first =>
    match cs with
    | [] => none
    | c :: rest =>
      if first ∧ c = Char.ofNat 125 then some (Json.obj [], rest)
      else
        match if c = Char.ofNat 34 then parseStrBody rest else none with
        | none => none
        | some (key, rest1) =>
          match skipWs rest1 with
          | c2 :: rest2 =>
            if c2 = Char.ofNat 58 then
              match parseValue fuel rest2 with
              | none => none
              | some (v, rest3) =>
                match skipWs rest3 with
                | c3 :: rest4 =>
                  if c3 = Char.ofNat 44 then
                    match parseMembers fuel (skipWs rest4) false with
                    | some (Json.obj ms, rest5) => some (Json.obj ((key, v) :: ms), rest5)
                    | _ => none
                  else if c3 = Char.ofNat 125 then
                    some (Json.obj [(key, v)], rest4)
                  else none
                | [] => none
            else none
          | [] => none

/-- The elements of an array, the opening bracket already consumed and the
whitespace after it skipped. -/
def parseElems : Nat → List Char → Bool → Option (Json × List Char)
  | 0, _, _ => none
  | fuel + 1, cs, first =>
    match cs with
    | [] => none
    | c :: rest =>
      if first ∧ c = Char.ofNat 93 then some (Json.arr [], rest)
      else
        match parseValue fuel cs with
        | none => none
        | some (v, rest1) =>
          match skipWs rest1 with
          | c2 :: rest2 =>
            if c2 = Char.ofNat 44 then
              match parseElems fuel (skipWs rest2) false with
              | some (Json.arr es, rest3) => some (Json.arr (v :: es), rest3)
              | _ => none
            else if c2 = Char.ofNat 93 then some (Json.arr [v], rest2)
            else none
          | [] => none

end

/-- Parse one JSON value from a string, with fuel that is sufficient for
any input of this length.  json.Decoder.Decode reads a single value and
leaves any trailing input in its buffer, so trailing characters are
returned rather than rejected. -/
def jsonDecodeVal (data : String) : Option (Json × List Char) :=
  parseValue (data.toList.length + 16) data.toList

/-! ## The Session of the yahoo provider

The session type of this provider lives in the same package as yahoo.go.
Its expiry field (a time.Time) is abstracted as an integer timestamp. -/

structure Session where
  AuthURL : String := ""
  AccessToken : String := ""
  RefreshToken : String := ""
  ExpiresAt : Int := 0
deriving DecidableEq, Repr

def lowerChars (cs : List Char) : List Char := cs.map Char.toLower

/-- Which Session field an incoming JSON key selects.  encoding/json matches
the exact field name first and falls back to a case-insensitive match;
unknown keys select no field and are ignored. -/
def sessionFieldOf (key : List Char) : Option Nat :=
  if key = "AuthURL".toList then some 0
  else if key = "AccessToken".toList then some 1
  else if key = "RefreshToken".toList then some 2
  else if key = "ExpiresAt".toList then some 3
  else if lowerChars key = lowerChars "AuthURL".toList then some 0
  else if lowerChars key = lowerChars "AccessToken".toList then some 1
  else if lowerChars key = lowerChars "RefreshToken".toList then some 2
  else if lowerChars key = lowerChars "ExpiresAt".toList then some 3
  else none

/-- The integer value of a number token, defined only when the token has no
fraction and no exponent part. -/
def intOfNum (neg : Bool) (ip : List Char) (tail : List Char) : Option Int :=
  if tail = [] then
    some (if neg then -(natOfDigits ip : Int) else (natOfDigits ip : Int))
  else none

/-- Store one object member into a Session, with encoding/json semantics:
a wrong-typed value leaves the field alone and records an error. -/
def sessionSetMember (s : Session) (kv : List Char × Json) : Session × Option String :=
  match sessionFieldOf kv.1 with
  | some 0 =>
    match kv.2 with
    | Json.str cs => ({ s with AuthURL := String.mk cs }, none)
    | _ => (s, some "cannot unmarshal value into field AuthURL")
  | some 1 =>
    match kv.2 with
    | Json.str cs => ({ s with AccessToken := String.mk cs }, none)
    | _ => (s, some "cannot unmarshal value into field AccessToken")
  | some 2 =>
    match kv.2 with
    | Json.str cs => ({ s with RefreshToken := String.mk cs }, none)
    | _ => (s, some "cannot unmarshal value into field RefreshToken")
  | some 3 =>
    match kv.2 with
    | Json.num neg ip tl =>
      match intOfNum neg ip tl with
      | some i => ({ s with ExpiresAt := i }, none)
      | none => (s, some "cannot unmarshal value into field ExpiresAt")
    | _ => (s, some "cannot unmarshal value into field ExpiresAt")
  | _ => (s, none)

/-- Decode a JSON value into a Session.  Members are applied in stream
order (a later duplicate overwrites an earlier one); the first error is
kept while decoding continues, as encoding/json does. -/
def decodeSessionJson (j : Json) : Session × Option String :=
  match j with
  | Json.obj members =>
    members.foldl
      (fun acc kv =>
        let r := sessionSetMember acc.1 kv
        (r.1, acc.2 <|> r.2))
      ({}, none)
  | _ => ({}, some "cannot unmarshal non-object value into Session")

/-! ## Provider construction (yahoo.go lines 16-49, 92-110) -/

def authURL : String := "https://api.login.yahoo.com/oauth2/request_auth"
def tokenURL : String := "https://api.login.yahoo.com/oauth2/get_token"
def endpointProfile : String := "https://social.yahooapis.com/v1/user/GUID/profile?format=json"

structure OAuth2Config where
  ClientID : String
  ClientSecret : String
  RedirectURL : String
  AuthURL : String
  TokenURL : String
  Scopes : List String
deriving Repr

/-- newConfig from yahoo.go: the scope loop appends each given scope to an
initially empty list. -/
def newConfig (clientKey secret callbackURL : String) (scopes : List String) : OAuth2Config :=
  { ClientID := clientKey
    ClientSecret := secret
    RedirectURL := callbackURL
    AuthURL := authURL
    TokenURL := tokenURL
    Scopes := scopes.foldl (fun acc scope => acc ++ [scope]) [] }

structure Provider where
  ClientKey : String
  Secret : String
  CallbackURL : String
  config : OAuth2Config

/-- New from yahoo.go. -/
def New (clientKey secret callbackURL : String) (scopes : List String) : Provider :=
  { ClientKey := clientKey
    Secret := secret
    CallbackURL := callbackURL
    config := newConfig clientKey secret callbackURL scopes }

/-- Name from yahoo.go. -/
def Name (_p : Provider) : String := "yahoo"

/-- Debug from yahoo.go is a no-op; it leaves the provider unchanged. -/
def Debug (p : Provider) (_debug : Bool) : Provider := p

/-! ## The authorization URL (golang.org/x/oauth2 Config.AuthCodeURL)

BeginAuth delegates URL construction to the oauth2 client library, an
external collaborator, modelled here from that library: url.Values.Encode
writes the keys in sorted order (client_id, redirect_uri, response_type,
scope, state), omits keys whose value is empty, and percent-escapes every
key and value per net/url QueryEscape, which works on UTF-8 bytes and
turns a space into a plus sign. -/

/-- UTF-8 bytes of a character. -/
def utf8Encode (c : Char) : List Nat :=
  let n := c.toNat
  if n < 128 then [n]
  else if n < 2048 then [192 + n / 64, 128 + n % 64]
  else if n < 65536 then [224 + n / 4096, 128 + n / 64 % 64, 128 + n % 64]
  else [240 + n / 262144, 128 + n / 4096 % 64, 128 + n / 64 % 64, 128 + n % 64]

def utf8Bytes (s : String) : List Nat := (s.toList.map utf8Encode).flatten

/-- Bytes net/url leaves unescaped in a query component: letters, digits,
hyphen, underscore, period, tilde. -/
def isUnreservedByte (b : Nat) : Bool :=
  decide ((65 ≤ b ∧ b ≤ 90) ∨ (97 ≤ b ∧ b ≤ 122) ∨ (48 ≤ b ∧ b ≤ 57) ∨
          b = 45 ∨ b = 95 ∨ b = 46 ∨ b = 126)

def escByte (b : Nat) : List Char :=
  if isUnreservedByte b then [Char.ofNat b]
  else if b = 32 then [Char.ofNat 43]
  else [Char.ofNat 37, hexDigitUp (b / 16), hexDigitUp (b % 16)]

def queryEscape (s : String) : List Char := ((utf8Bytes s).map escByte).flatten

/-- url.Values holds a list of strings per key; an empty string contributes
no entry (condVal in the oauth2 library). -/
def condVal (v : String) : List String := if v = "" then [] else [v]

def joinAmp : List (List Char) → List Char
  | [] => []
  | [x] => x
  | x :: y :: ys => x ++ Char.ofNat 38 :: joinAmp (y :: ys)

def valuesEncode (vs : List (String × List String)) : List Char :=
  joinAmp ((vs.map (fun kv => kv.2.map
    (fun v => queryEscape kv.1 ++ Char.ofNat 61 :: queryEscape v))).flatten)

def containsQm (s : String) : Bool := s.toList.any (fun c => c = Char.ofNat 63)

/-- Config.AuthCodeURL of the oauth2 library: the fixed endpoint, a question
mark (an ampersand if the endpoint already has a query), then the encoded
values. -/
def AuthCodeURL (c : OAuth2Config) (state : String) : String :=
  let vs := [("client_id", condVal c.ClientID),
             ("redirect_uri", condVal c.RedirectURL),
             ("response_type", condVal "code"),
             ("scope", condVal (String.intercalate " " c.Scopes)),
             ("state", condVal state)]
  c.AuthURL ++ String.mk ((if containsQm c.AuthURL then Char.ofNat 38 else Char.ofNat 63)
    :: valuesEncode vs)

/-- BeginAuth from yahoo.go: a fresh Session whose only populated field is
the authorization URL, and a nil error. -/
def BeginAuth (p : Provider) (state : String) : Session × Option String :=
  ({ AuthURL := AuthCodeURL p.config state }, none)

/-! ## Observing a URL's query string

These functions define what it means for a URL to carry a query parameter;
they follow net/url ParseQuery: the query is the part after the first
question mark, parameters are separated by ampersands, a parameter is split
at its first equals sign, and keys and values are unescaped. -/

def afterQm : List Char → List Char
  | [] => []
  | c :: cs => if c = Char.ofNat 63 then cs else afterQm cs

def splitAmp : List Char → List (List Char)
  | [] => [[]]
  | c :: cs =>
    if c = Char.ofNat 38 then [] :: splitAmp cs
    else
      match splitAmp cs with
      | [] => [[c]]
      | g :: gs => (c :: g) :: gs

def splitEq : List Char → List Char × List Char
  | [] => ([], [])
  | c :: cs =>
    if c = Char.ofNat 61 then ([], cs)
    else
      let p := splitEq cs
      (c :: p.1, p.2)

/-- Unescape a query component back to its bytes: a plus sign means space,
a percent escape means its byte, a raw character contributes its UTF-8
bytes. -/
def queryUnescape : List Char → Option (List Nat)
  | [] => some []
  | c :: cs =>
    if c = Char.ofNat 37 then
      match cs with
      | h1 :: h2 :: cs2 =>
        match hexVal h1, hexVal h2 with
        | some a, some b => (queryUnescape cs2).map (fun bs => (a * 16 + b) :: bs)
        | _, _ => none
      | _ => none
    else if c = Char.ofNat 43 then (queryUnescape cs).map (fun bs => 32 :: bs)
    else (queryUnescape cs).map (fun bs => utf8Encode c ++ bs)

/-- The decoded bytes of the named query parameter of a URL, when
present. -/
def queryParam (url : String) (key : String) : Option (List Nat) :=
  let segs := (splitAmp (afterQm url.toList)).map splitEq
  match segs.find? (fun kv => queryUnescape kv.1 == some (utf8Bytes key)) with
  | some kv => queryUnescape kv.2
  | none => none

/-! ## UnmarshalSession (yahoo.go lines 86-90) -/

/-- UnmarshalSession from yahoo.go: decode the string into a fresh Session
with json.Decoder.Decode and return the session (partially filled on a
field error, untouched on a syntax error) together with the error. -/
def UnmarshalSession (_p : Provider) (data : String) : Session × Option String :=
  match jsonDecodeVal data with
  | none => ({}, some "invalid JSON input")
  | some (j, _rest) => decodeSessionJson j

/-- Modelled from the spec: Session.Marshal lives in this repository's
session file for the provider, which is not among the sources given (only
UnmarshalSession is).  Per the spec the persisted layout is the JSON object
with the authorization URL, access token, refresh token and expiry fields;
json.Marshal writes the fields in declaration order, escapes the strings and
adds no whitespace. -/
def marshalChars (s : Session) : List Char :=
  Char.ofNat 123 ::
    strLit "AuthURL".toList ++ Char.ofNat 58 :: strLit s.AuthURL.toList
    ++ Char.ofNat 44 :: strLit "AccessToken".toList ++ Char.ofNat 58 :: strLit s.AccessToken.toList
    ++ Char.ofNat 44 :: strLit "RefreshToken".toList ++ Char.ofNat 58 :: strLit s.RefreshToken.toList
    ++ Char.ofNat 44 :: strLit "ExpiresAt".toList ++ Char.ofNat 58 :: intChars s.ExpiresAt
    ++ [Char.ofNat 125]

def Session.Marshal (s : Session) : String := String.mk (marshalChars s)

/-- The JSON tree a marshalled session parses back to. -/
def sessionJson (s : Session) : Json :=
  Json.obj [("AuthURL".toList, Json.str s.AuthURL.toList),
            ("AccessToken".toList, Json.str s.AccessToken.toList),
            ("RefreshToken".toList, Json.str s.RefreshToken.toList),
            ("ExpiresAt".toList,
              Json.num (decide (s.ExpiresAt < 0)) (natChars s.ExpiresAt.natAbs) [])]

/-! ## The user record and the profile decode (yahoo.go lines 59-83, 112-134)

Only the goth.User fields touched by yahoo.go are modelled. -/

structure User where
  Email : String := ""
  Name : String := ""
  NickName : String := ""
  UserID : String := ""
  Location : String := ""
  AvatarURL : String := ""
  AccessToken : String := ""
  RefreshToken : String := ""
  ExpiresAt : Int := 0
  Provider : String := ""
deriving DecidableEq, Repr

/-- The anonymous struct of userFromReader. -/
structure YahooProfile where
  NickName : String := ""
  Location : String := ""
  ID : String := ""
  ImageURL : String := ""
deriving DecidableEq, Repr

/-- Tag match for a struct field with a json tag: exact first, then
case-insensitive. -/
def tagMatch (tag : String) (key : List Char) : Bool :=
  key = tag.toList ∨ lowerChars key = lowerChars tag.toList

/-- Decode the image object of the profile into the ImageURL field. -/
def decodeImage (j : Json) (u : YahooProfile) : YahooProfile × Option String :=
  match j with
  | Json.obj members =>
    members.foldl
      (fun acc kv =>
        if tagMatch "imageURL" kv.1 then
          match kv.2 with
          | Json.str cs => ({ acc.1 with ImageURL := String.mk cs }, acc.2)
          | _ => (acc.1, acc.2 <|> some "cannot unmarshal value into field imageURL")
        else acc)
      (u, none)
  | _ => (u, some "cannot unmarshal value into field image")

/-- Decode the inner profile object. -/
def decodeProfileObj (j : Json) (u : YahooProfile) : YahooProfile × Option String :=
  match j with
  | Json.obj members =>
    members.foldl
      (fun acc kv =>
        if tagMatch "nickname" kv.1 then
          match kv.2 with
          | Json.str cs => ({ acc.1 with NickName := String.mk cs }, acc.2)
          | _ => (acc.1, acc.2 <|> some "cannot unmarshal value into field nickname")
        else if tagMatch "location" kv.1 then
          match kv.2 with
          | Json.str cs => ({ acc.1 with Location := String.mk cs }, acc.2)
          | _ => (acc.1, acc.2 <|> some "cannot unmarshal value into field location")
        else if tagMatch "guid" kv.1 then
          match kv.2 with
          | Json.str cs => ({ acc.1 with ID := String.mk cs }, acc.2)
          | _ => (acc.1, acc.2 <|> some "cannot unmarshal value into field guid")
        else if tagMatch "image" kv.1 then
          let r := decodeImage kv.2 acc.1
          (r.1, acc.2 <|> r.2)
        else acc)
      (u, none)
  | _ => (u, some "cannot unmarshal value into field profile")

/-- Decode the top-level response object. -/
def decodeProfileTop (j : Json) : YahooProfile × Option String :=
  match j with
  | Json.obj members =>
    members.foldl
      (fun acc kv =>
        if tagMatch "profile" kv.1 then
          let r := decodeProfileObj kv.2 acc.1
          (r.1, acc.2 <|> r.2)
        else acc)
      ({}, none)
  | _ => ({}, some "cannot unmarshal non-object value into profile response")

/-- userFromReader from yahoo.go: on a decode error the user is returned
unchanged with the error; otherwise the profile fields are copied and the
email is set to empty. -/
def userFromReader (body : String) (user : User) : User × Option String :=
  match jsonDecodeVal body with
  | none => (user, some "invalid JSON in profile response")
  | some (j, _rest) =>
    let r := decodeProfileTop j
    match r.2 with
    | some e => (user, some e)
    | none =>
      ({ user with
          Email := ""
          Name := r.1.NickName
          NickName := r.1.NickName
          UserID := r.1.ID
          Location := r.1.Location
          AvatarURL := r.1.ImageURL }, none)

/-! ## FetchUser (yahoo.go lines 59-83)

The HTTP client is an external collaborator, abstracted as an oracle from
the request to its outcome.  A DoResult.success carries the status code and
body of any response the client returned without a transport error -
including non-2xx responses, which http.Client.Do does not turn into
errors. -/

structure HttpRequest where
  method : String
  url : String
  authHeader : String
deriving DecidableEq, Repr

inductive DoResult where
  | success (status : Nat) (body : String) : DoResult
  | failure (errMsg : String) : DoResult

/-- FetchUser from yahoo.go, for a session value already of this provider's
concrete type.  http.NewRequest on the constant profile URL cannot fail, so
that error branch is unreachable; on a transport failure the partially
populated user is returned with the error (the body, if any, is closed but
never read); on success the body is decoded - the status code is never
inspected. -/
def FetchUser (p : Provider) (transport : HttpRequest → DoResult) (s : Session) :
    User × Option String :=
  let user : User :=
    { AccessToken := s.AccessToken
      Provider := Name p
      RefreshToken := s.RefreshToken
      ExpiresAt := s.ExpiresAt }
  let req : HttpRequest :=
    { method := "GET", url := endpointProfile, authHeader := "Bearer " ++ s.AccessToken }
  match transport req with
  | DoResult.failure msg => (user, some msg)
  | DoResult.success _status body => userFromReader body user

/-- A goth.Session interface value: either this provider's session or a
session of another provider's concrete type. -/
inductive GothSession where
  | yahoo (s : Session) : GothSession
  | foreign (providerName : String) (payload : String) : GothSession

/-- FetchUser as invoked through the goth.Provider interface.  Its first
statement is the unchecked type assertion session.(*Session), which panics
when the dynamic type is not this provider's Session; the panic outcome is
modelled as none. -/
def FetchUserIface (p : Provider) (transport : HttpRequest → DoResult)
    (sess : GothSession) : Option (User × Option String) :=
  match sess with
  | GothSession.yahoo s => some (FetchUser p transport s)
  | GothSession.foreign _ _ => none

/-! ## Token refresh (yahoo.go lines 136-150) -/

structure OAuth2Token where
  AccessToken : String := ""
  RefreshToken : String := ""
  Expiry : Int := 0
deriving DecidableEq, Repr

/-- RefreshTokenAvailable from yahoo.go. -/
def RefreshTokenAvailable (_p : Provider) : Bool := true

/-- RefreshToken from yahoo.go.  The oauth2 token source built from the
provider's config is an external collaborator, abstracted as an oracle from
the seed token to its result.  The code seeds it with a token holding only
the refresh token and returns its result unchanged. -/
def RefreshToken (_p : Provider) (tokenSource : OAuth2Token → Except String OAuth2Token)
    (refreshToken : String) : Except String OAuth2Token :=
  let token : OAuth2Token := { RefreshToken := refreshToken }
  match tokenSource token with
  | Except.error e => Except.error e
  | Except.ok newToken => Except.ok newToken

/-! ## Character and digit lemmas -/

theorem toNat_ofNat (n : Nat) (h : n < 55296) : (Char.ofNat n).toNat = n := by
  have hv : n.isValidChar := Or.inl h
  simp [Char.ofNat, hv, Char.ofNatAux, Char.toNat]
  rfl

theorem hexVal_hexDigit : ∀ n : Nat, n < 16 → hexVal (hexDigit n) = some n := by decide

theorem digitChar_not_ws (d : Nat) (hd : d < 10) : isWs (digitChar d) = false := by
  revert d; decide

theorem isDigit_digitChar (d : Nat) (hd : d < 10) : isDigit (digitChar d) = true := by
  revert d; decide

theorem toNat_digitChar (d : Nat) (hd : d < 10) : (digitChar d).toNat = 48 + d := by
  unfold digitChar; exact toNat_ofNat _ (by omega)

/-! ## Decimal printing round trip -/

theorem natOfDigits_aux (l : List Nat) (acc : Nat) (hd : ∀ d ∈ l, d < 10) :
    (l.map digitChar).foldl (fun a c => a * 10 + (c.toNat - 48)) acc
      = acc * 10 ^ l.length + Nat.ofDigits 10 l.reverse := by
  induction l generalizing acc with
  | nil => simp [Nat.ofDigits]
  | cons d l ih =>
    have hdlt : d < 10 := hd d (List.mem_cons_self d l)
    have hrec := ih (acc * 10 + d) (fun x hx => hd x (List.mem_cons_of_mem d hx))
    simp only [List.map_cons, List.foldl_cons, toNat_digitChar d hdlt, Nat.add_sub_cancel_left,
      hrec, List.reverse_cons, List.length_cons]
    rw [Nat.ofDigits_append]
    simp [Nat.ofDigits]
    ring

theorem natOfDigits_natChars (n : Nat) : natOfDigits (natChars n) = n := by
  by_cases h0 : n = 0
  · subst h0; decide
  · unfold natOfDigits natChars
    rw [if_neg h0, ← List.map_reverse]
    have hall : ∀ d ∈ (Nat.digits 10 n).reverse, d < 10 := by
      intro d hdm
      exact Nat.digits_lt_base (by omega) (List.mem_reverse.mp hdm)
    rw [natOfDigits_aux _ 0 hall]
    simp [Nat.ofDigits_digits]

theorem natChars_all_digits (n : Nat) : ∀ c ∈ natChars n, isDigit c = true := by
  by_cases h0 : n = 0
  · subst h0; decide
  · unfold natChars
    rw [if_neg h0]
    intro c hc
    rw [List.mem_reverse, List.mem_map] at hc
    obtain ⟨d, hdm, rfl⟩ := hc
    exact isDigit_digitChar d (Nat.digits_lt_base (by omega) hdm)

theorem natChars_ne_nil (n : Nat) : natChars n ≠ [] := by
  by_cases h0 : n = 0
  · subst h0; decide
  · unfold natChars
    rw [if_neg h0]
    simp [Nat.digits_ne_nil_iff_ne_zero.mpr h0]

/-- The printed digits never have a redundant leading zero. -/
theorem natChars_no_leading_zero (n : Nat) (d : Char) (ds : List Char)
    (h : natChars n = d :: ds) : ¬(d = Char.ofNat 48 ∧ ds ≠ []) := by
  rintro ⟨rfl, hne⟩
  by_cases h0 : n = 0
  · subst h0
    simp [natChars] at h
    exact hne h
  · unfold natChars at h
    rw [if_neg h0] at h
    have hLne : Nat.digits 10 n ≠ [] := Nat.digits_ne_nil_iff_ne_zero.mpr h0
    have hlast : (Nat.digits 10 n).getLast hLne ≠ 0 := Nat.getLast_digit_ne_zero 10 h0
    have hmem : (Nat.digits 10 n).getLast hLne ∈ Nat.digits 10 n := List.getLast_mem hLne
    have hlt : (Nat.digits 10 n).getLast hLne < 10 := Nat.digits_lt_base (by omega) hmem
    have hhd : (((Nat.digits 10 n).map digitChar).reverse).head?
        = some (digitChar ((Nat.digits 10 n).getLast hLne)) := by
      rw [List.head?_reverse, List.getLast?_map, List.getLast?_eq_getLast _ hLne]
      rfl
    rw [h] at hhd
    simp at hhd
    have h48 : (digitChar ((Nat.digits 10 n).getLast hLne)).toNat = 48 := by
      rw [← hhd]; decide
    rw [toNat_digitChar _ hlt] at h48
    omega

/-! ## JSON string literal round trip -/

theorem escChars_cons (c : Char) (cs : List Char) :
    escChars (c :: cs) = escapeChar c ++ escChars cs := by
  simp [escChars]

theorem hexVal_48 : hexVal (Char.ofNat 48) = some 0 := by decide

theorem hexVal_50 : hexVal (Char.ofNat 50) = some 2 := by decide

theorem parseStrBody_escChars (cs rest : List Char) :
    parseStrBody (escChars cs ++ Char.ofNat 34 :: rest) = some (cs, rest) := by
  induction cs with
  | nil =>
    rw [show escChars [] = [] from rfl, List.nil_append, parseStrBody.eq_def]
    simp +decide
  | cons c cs ih =>
    rw [escChars_cons, List.append_assoc]
    by_cases h1 : c = Char.ofNat 34
    · subst h1
      simp +decide only [escapeChar, List.cons_append, List.nil_append]
      rw [parseStrBody.eq_def]
      simp +decide [ih]
    · by_cases h2 : c = Char.ofNat 92
      · subst h2
        simp +decide only [escapeChar, List.cons_append, List.nil_append]
        rw [parseStrBody.eq_def]
        simp +decide [ih]
      · by_cases h3 : c = Char.ofNat 10
        · subst h3
          simp +decide only [escapeChar, List.cons_append, List.nil_append]
          rw [parseStrBody.eq_def]
          simp +decide [ih]
        · by_cases h4 : c = Char.ofNat 13
          · subst h4
            simp +decide only [escapeChar, List.cons_append, List.nil_append]
            rw [parseStrBody.eq_def]
            simp +decide [ih]
          · by_cases h5 : c = Char.ofNat 9
            · subst h5
              simp +decide only [escapeChar, List.cons_append, List.nil_append]
              rw [parseStrBody.eq_def]
              simp +decide [ih]
            · by_cases h6 : c.toNat < 32
              · have ha := hexVal_hexDigit (c.toNat / 16) (by omega)
                have hb := hexVal_hexDigit (c.toNat % 16) (by omega)
                have hcode : c.toNat / 16 * 16 + c.toNat % 16 = c.toNat := by omega
                have hsur : ¬(55296 ≤ c.toNat ∧ c.toNat < 57344) := by omega
                simp only [escapeChar, if_neg h1, if_neg h2, if_neg h3, if_neg h4, if_neg h5,
                  if_pos h6, List.cons_append, List.nil_append]
                rw [parseStrBody.eq_def]
                simp +decide [hexVal_48, ha, hb, hcode, hsur, ih, Char.ofNat_toNat]
              · by_cases h7 : c = Char.ofNat 60 ∨ c = Char.ofNat 62 ∨ c = Char.ofNat 38
                · rcases h7 with h7 | h7 | h7 <;>
                  · subst h7
                    simp +decide only [escapeChar, List.cons_append, List.nil_append]
                    rw [parseStrBody.eq_def]
                    simp +decide [hexVal, hexDigit, ih]
                · by_cases h8 : c.toNat = 8232 ∨ c.toNat = 8233
                  · have ha := hexVal_hexDigit (c.toNat % 16) (by omega)
                    have hcode : 8224 + c.toNat % 16 = c.toNat := by omega
                    have hsur : ¬(55296 ≤ c.toNat ∧ c.toNat < 57344) := by omega
                    simp only [escapeChar, if_neg h1, if_neg h2, if_neg h3, if_neg h4, if_neg h5,
                      if_neg h6, if_neg h7, if_pos h8, List.cons_append, List.nil_append]
                    rw [parseStrBody.eq_def]
                    simp +decide [hexVal_48, hexVal_50, ha, hcode, hsur, ih, Char.ofNat_toNat]
                  · simp only [escapeChar, if_neg h1, if_neg h2, if_neg h3, if_neg h4, if_neg h5,
                      if_neg h6, if_neg h7, if_neg h8, List.cons_append, List.nil_append]
                    rw [parseStrBody.eq_def]
                    simp [h1, h2, h6, ih]

/-! ## Number token round trip -/

theorem skipWs_cons (c : Char) (cs : List Char) (h : isWs c = false) :
    skipWs (c :: cs) = c :: cs := by
  simp [skipWs, h]

theorem takeWhile_append_stop (p : Char → Bool) (l1 : List Char) (c : Char) (l2 : List Char)
    (h1 : ∀ x ∈ l1, p x = true) (h2 : p c = false) :
    (l1 ++ c :: l2).takeWhile p = l1 ∧ (l1 ++ c :: l2).dropWhile p = c :: l2 := by
  induction l1 with
  | nil => simp [List.takeWhile_cons, List.dropWhile_cons, h2]
  | cons a l1 ih =>
    have hpa : p a = true := h1 a (List.mem_cons_self a l1)
    have ih2 := ih (fun x hx => h1 x (List.mem_cons_of_mem a hx))
    simp [List.takeWhile_cons, List.dropWhile_cons, hpa, ih2.1, ih2.2]

theorem parseIntDigits_natChars (n : Nat) (c : Char) (rest : List Char)
    (hc : isDigit c = false) :
    parseIntDigits (natChars n ++ c :: rest) = some (natChars n, c :: rest) := by
  have h := takeWhile_append_stop isDigit (natChars n) c rest (natChars_all_digits n) hc
  unfold parseIntDigits
  rw [h.1, h.2]
  rcases hn : natChars n with _ | ⟨d, ds⟩
  · exact absurd hn (natChars_ne_nil n)
  · have hnz := natChars_no_leading_zero n d ds hn
    simp [hnz]

theorem parseFrac_stop (c : Char) (rest : List Char) (h : ¬c = Char.ofNat 46) :
    parseFrac (c :: rest) = some ([], c :: rest) := by
  simp [parseFrac, h]

theorem parseExp_stop (c : Char) (rest : List Char) (h1 : ¬c = Char.ofNat 101)
    (h2 : ¬c = Char.ofNat 69) :
    parseExp (c :: rest) = some ([], c :: rest) := by
  simp [parseExp, h1, h2]

theorem parseNum_natChars (neg : Bool) (n : Nat) (c : Char) (rest : List Char)
    (hd : isDigit c = false) (h46 : ¬c = Char.ofNat 46) (h101 : ¬c = Char.ofNat 101)
    (h69 : ¬c = Char.ofNat 69) :
    parseNum neg (natChars n ++ c :: rest) = some (Json.num neg (natChars n) [], c :: rest) := by
  unfold parseNum
  simp [parseIntDigits_natChars n c rest hd, parseFrac_stop c rest h46,
    parseExp_stop c rest h101 h69]

theorem isDigit_toNat (c : Char) (h : isDigit c = true) : 48 ≤ c.toNat ∧ c.toNat ≤ 57 := by
  simpa [isDigit] using h

theorem char_ne_of_toNat_ne (c : Char) (n : Nat) (hn : n < 55296) (h : c.toNat ≠ n) :
    ¬c = Char.ofNat n := fun he => h (by rw [he, toNat_ofNat n hn])

theorem isWs_of_digit (c : Char) (h : isDigit c = true) : isWs c = false := by
  have hb := isDigit_toNat c h
  simp only [isWs, Bool.or_eq_false_iff, decide_eq_false_iff_not]
  refine ⟨⟨⟨?_, ?_⟩, ?_⟩, ?_⟩ <;>
    exact char_ne_of_toNat_ne c _ (by omega) (by omega)

/-- Parsing a printed integer right before a closing brace. -/
theorem parseValue_intChars (f : Nat) (i : Int) (rest : List Char) :
    parseValue (f + 1) (intChars i ++ Char.ofNat 125 :: rest)
      = some (Json.num (decide (i < 0)) (natChars i.natAbs) [], Char.ofNat 125 :: rest) := by
  by_cases hneg : i < 0
  · rw [show intChars i = Char.ofNat 45 :: natChars i.natAbs from by
      simp [intChars, hneg]]
    rw [List.cons_append, parseValue.eq_def]
    simp +decide only [skipWs_cons]
    rw [parseNum_natChars true i.natAbs (Char.ofNat 125) rest (by decide) (by decide)
      (by decide) (by decide)]
    simp [hneg]
  · rw [show intChars i = natChars i.natAbs from by
      have : i.toNat = i.natAbs := by omega
      simp [intChars, hneg, this]]
    rcases hn : natChars i.natAbs with _ | ⟨d, ds⟩
    · exact absurd hn (natChars_ne_nil _)
    · have hd : isDigit d = true :=
        natChars_all_digits i.natAbs d (by rw [hn]; exact List.mem_cons_self d ds)
      have hb := isDigit_toNat d hd
      have h34 := char_ne_of_toNat_ne d 34 (by omega) (by omega)
      have h123 := char_ne_of_toNat_ne d 123 (by omega) (by omega)
      have h91 := char_ne_of_toNat_ne d 91 (by omega) (by omega)
      have h45 := char_ne_of_toNat_ne d 45 (by omega) (by omega)
      have hws := isWs_of_digit d hd
      rw [List.cons_append, parseValue.eq_def]
      simp only [skipWs_cons _ _ hws]
      simp only [h34, h123, h91, h45, hd, if_neg, if_pos, ite_false, ite_true]
      rw [← List.cons_append, ← hn]
      rw [parseNum_natChars false i.natAbs (Char.ofNat 125) rest (by decide) (by decide)
        (by decide) (by decide)]
      simp [hneg]

/-! ## Parsing a marshalled session -/

set_option synthInstance.maxHeartbeats 1000000 in
/-- One string-valued member followed by a comma and the quote of the next
key. -/
theorem parseMembers_str_comma (f : Nat) (key content tail : List Char) (first : Bool) :
    parseMembers (f + 2)
      (Char.ofNat 34 :: (escChars key ++ Char.ofNat 34 :: Char.ofNat 58 ::
        Char.ofNat 34 :: (escChars content ++ Char.ofNat 34 :: Char.ofNat 44 ::
        Char.ofNat 34 :: tail))) first
      = (match parseMembers (f + 1) (Char.ofNat 34 :: tail) false with
        | some (Json.obj ms, r) => some (Json.obj ((key, Json.str content) :: ms), r)
        | _ => none) := by
  rw [show f + 2 = (f + 1) + 1 from rfl, parseMembers.eq_def]
  simp +decide [parseStrBody_escChars, skipWs]
  rw [parseValue.eq_def]
  simp +decide [parseStrBody_escChars, skipWs]

set_option synthInstance.maxHeartbeats 1000000 in
/-- The final member: an integer value followed by the closing brace. -/
theorem parseMembers_num_close (f : Nat) (key tail : List Char) (i : Int) (first : Bool) :
    parseMembers (f + 2)
      (Char.ofNat 34 :: (escChars key ++ Char.ofNat 34 :: Char.ofNat 58 ::
        (intChars i ++ Char.ofNat 125 :: tail))) first
      = some (Json.obj [(key, Json.num (decide (i < 0)) (natChars i.natAbs) [])], tail) := by
  rw [show f + 2 = (f + 1) + 1 from rfl, parseMembers.eq_def]
  simp +decide [parseStrBody_escChars, skipWs, parseValue_intChars]

set_option synthInstance.maxHeartbeats 1000000 in
/-- A marshalled session parses back to its JSON tree, consuming the whole
input, at any sufficient fuel. -/
theorem parseValue_marshalChars (s : Session) (f : Nat) :
    parseValue (f + 8) (marshalChars s) = some (sessionJson s, []) := by
  unfold marshalChars strLit
  simp only [List.append_assoc, List.cons_append, List.nil_append]
  rw [show f + 8 = (f + 7) + 1 from rfl, parseValue.eq_def]
  simp +decide [skipWs]
  rw [show f + 7 = (f + 5) + 2 from rfl, parseMembers_str_comma]
  rw [show f + 5 + 1 = (f + 4) + 2 from rfl, parseMembers_str_comma]
  rw [show f + 4 + 1 = (f + 3) + 2 from rfl, parseMembers_str_comma]
  rw [show f + 3 + 1 = (f + 2) + 2 from rfl, parseMembers_num_close]
  simp [sessionJson]

/-! ## Decoding the session JSON tree -/

theorem mk_toList (s : String) : String.mk s.toList = s := rfl

theorem intOfNum_round (i : Int) :
    intOfNum (decide (i < 0)) (natChars i.natAbs) [] = some i := by
  unfold intOfNum
  rw [if_pos rfl, natOfDigits_natChars]
  by_cases hi : i < 0
  · rw [if_pos (by simpa using hi)]
    congr 1
    omega
  · rw [if_neg (by simpa using hi)]
    congr 1
    omega

theorem decodeSessionJson_sessionJson (s : Session) :
    decodeSessionJson (sessionJson s) = (s, none) := by
  unfold decodeSessionJson sessionJson
  simp +decide [sessionSetMember, sessionFieldOf, intOfNum_round, mk_toList]

/-! ## The claims -/

/-- Claim C1: for every Session value, with any combination of populated and
empty fields (AuthURL, access token, refresh token, expiry), deserializing
its serialized string form via UnmarshalSession yields a Session equal to
the original, with no error: a lossless textual round trip. -/
theorem unmarshalSession_marshal_round_trip (p : Provider) (s : Session) :
    UnmarshalSession p (Session.Marshal s) = (s, none) := by
  unfold UnmarshalSession jsonDecodeVal Session.Marshal
  rw [show (String.mk (marshalChars s)).toList = marshalChars s from rfl]
  rw [show (marshalChars s).length + 16 = ((marshalChars s).length + 8) + 8 from rfl]
  rw [parseValue_marshalChars]
  simp [decodeSessionJson_sessionJson]

/-- Claim C2: for every session (whatever bearer token it carries - the code
does not inspect it), when the profile endpoint responds with the jdoe
profile body, FetchUser returns without error a user record with
Name and NickName jdoe, UserID 123, Location US, the avatar URL, an empty
Email, and the token fields carried over from the session. -/
theorem fetchUser_jdoe_profile (p : Provider) (s : Session) (status : Nat) :
    FetchUser p
      (fun _ => DoResult.success status
        "\x7b\"profile\":\x7b\"nickname\":\"jdoe\",\"location\":\"US\",\"guid\":\"123\",\"image\":\x7b\"imageURL\":\"http://x/img.png\"\x7d\x7d\x7d")
      s
      = ({ Email := "", Name := "jdoe", NickName := "jdoe", UserID := "123",
           Location := "US", AvatarURL := "http://x/img.png",
           AccessToken := s.AccessToken, RefreshToken := s.RefreshToken,
           ExpiresAt := s.ExpiresAt, Provider := "yahoo" }, none) := rfl

/-- Claim C3 (amended): when the transport fails (network error, connection
refused), FetchUser returns the failure together with a user record whose
profile fields are unset and whose token fields are carried from the
session.  A non-2xx HTTP response, however, is not detected: the status
code is never inspected and the body is decoded as on success (see the
counterexample). -/
theorem fetchUser_transport_failure (p : Provider) (s : Session) (msg : String) :
    FetchUser p (fun _ => DoResult.failure msg) s
      = ({ Email := "", Name := "", NickName := "", UserID := "", Location := "",
           AvatarURL := "", AccessToken := s.AccessToken, RefreshToken := s.RefreshToken,
           ExpiresAt := s.ExpiresAt, Provider := "yahoo" }, some msg) := rfl

/-- Claim C3 counterexample: a 500 response whose body is the valid JSON
object produces no error at all, contradicting the claim that every non-2xx
response yields a TransportFailed-class error. -/
theorem fetchUser_non2xx_no_error :
    (FetchUser (New "k" "sec" "cb" []) (fun _ => DoResult.success 500 "\x7b\x7d")
      { AccessToken := "tok", RefreshToken := "r", ExpiresAt := 5 }).2 = none := rfl

/-- Claim C4: a successful response whose JSON body is the empty object
decodes every profile field to the empty string without error, and a body
missing only the image object yields an empty AvatarURL, the other profile
fields set, and no error. -/
theorem fetchUser_partial_body (p : Provider) (s : Session) (status : Nat) :
    FetchUser p (fun _ => DoResult.success status "\x7b\x7d") s
      = ({ Email := "", Name := "", NickName := "", UserID := "", Location := "",
           AvatarURL := "", AccessToken := s.AccessToken, RefreshToken := s.RefreshToken,
           ExpiresAt := s.ExpiresAt, Provider := "yahoo" }, none)
    ∧ FetchUser p
        (fun _ => DoResult.success status
          "\x7b\"profile\":\x7b\"nickname\":\"jdoe\",\"location\":\"US\",\"guid\":\"123\"\x7d\x7d")
        s
      = ({ Email := "", Name := "jdoe", NickName := "jdoe", UserID := "123",
           Location := "US", AvatarURL := "",
           AccessToken := s.AccessToken, RefreshToken := s.RefreshToken,
           ExpiresAt := s.ExpiresAt, Provider := "yahoo" }, none) :=
  ⟨rfl, rfl⟩

/-- Claim C7: RefreshToken seeds the oauth2 token source with a token
holding only the refresh token (no access token, no expiry) and returns the
source's outcome unchanged: an error propagates verbatim, a success returns
the new token as produced. -/
theorem refreshToken_delegates (p : Provider)
    (tokenSource : OAuth2Token → Except String OAuth2Token) (refreshToken : String) :
    RefreshToken p tokenSource refreshToken
      = tokenSource { AccessToken := "", RefreshToken := refreshToken, Expiry := 0 } := by
  unfold RefreshToken
  cases htk : tokenSource { AccessToken := "", RefreshToken := refreshToken, Expiry := 0 } with
  | error e => simp [htk]
  | ok t => simp [htk]

/-- Claim C8: whenever FetchUser returns an error for a response the
transport delivered (necessarily a decode failure, since the transport
succeeded), the user record it returns alongside carries the token fields
from the session and has every profile field empty. -/
theorem fetchUser_decode_failure_partial_user (p : Provider) (s : Session) (status : Nat)
    (body : String)
    (herr : (FetchUser p (fun _ => DoResult.success status body) s).2.isSome = true) :
    (FetchUser p (fun _ => DoResult.success status body) s).1
      = { Email := "", Name := "", NickName := "", UserID := "", Location := "",
          AvatarURL := "", AccessToken := s.AccessToken, RefreshToken := s.RefreshToken,
          ExpiresAt := s.ExpiresAt, Provider := "yahoo" } := by
  unfold FetchUser userFromReader at herr ⊢
  cases hj : jsonDecodeVal body with
  | none => simp [hj, Name]
  | some jr =>
    cases he : (decodeProfileTop jr.1).2 with
    | none => simp [hj, he] at herr
    | some e => simp [hj, he, Name]

theorem fetchUser_decode_failure_partial_user_witness :
    ((FetchUser (New "k" "sec" "cb" []) (fun _ => DoResult.success 200 "not json")
        { AccessToken := "tok", RefreshToken := "r", ExpiresAt := 7 }).2.isSome = true)
    ∧ (FetchUser (New "k" "sec" "cb" []) (fun _ => DoResult.success 200 "not json")
        { AccessToken := "tok", RefreshToken := "r", ExpiresAt := 7 }).1
      = { Email := "", Name := "", NickName := "", UserID := "", Location := "",
          AvatarURL := "", AccessToken := "tok", RefreshToken := "r",
          ExpiresAt := 7, Provider := "yahoo" } :=
  ⟨rfl, fetchUser_decode_failure_partial_user (New "k" "sec" "cb" [])
    { AccessToken := "tok", RefreshToken := "r", ExpiresAt := 7 } 200 "not json" rfl⟩

/-- Claim C9: FetchUser's first step is an unchecked type assertion of the
incoming interface value to this provider's Session type; for a session of
any other concrete type it panics (modelled as none) instead of returning
an error value, while a session of the right type never panics. -/
theorem fetchUser_foreign_session_panics (p : Provider)
    (transport : HttpRequest → DoResult) (providerName payload : String) :
    FetchUserIface p transport (GothSession.foreign providerName payload) = none
    ∧ ∀ s : Session, (FetchUserIface p transport (GothSession.yahoo s)).isSome = true :=
  ⟨rfl, fun _ => rfl⟩

/-- Claim C10: BeginAuth never fails - for every provider and state the
error component of its result is nil. -/
theorem beginAuth_never_fails (p : Provider) (state : String) :
    (BeginAuth p state).2 = none := rfl

/-! ## Percent escaping round trip -/

theorem hexVal_hexDigitUp : ∀ n : Nat, n < 16 → hexVal (hexDigitUp n) = some n := by decide

theorem char_toNat_lt (c : Char) : c.toNat < 1114112 := by
  have hv : c.toNat < 55296 ∨ (57344 ≤ c.toNat ∧ c.toNat < 1114112) := c.valid
  omega

theorem utf8Encode_lt (c : Char) : ∀ b ∈ utf8Encode c, b < 256 := by
  have hc := char_toNat_lt c
  intro b hb
  unfold utf8Encode at hb
  dsimp only at hb
  split_ifs at hb <;> simp at hb <;> omega

theorem utf8Bytes_lt (s : String) : ∀ b ∈ utf8Bytes s, b < 256 := by
  intro b hb
  unfold utf8Bytes at hb
  rw [List.mem_flatten] at hb
  obtain ⟨l, hl, hbl⟩ := hb
  rw [List.mem_map] at hl
  obtain ⟨c, _, rfl⟩ := hl
  exact utf8Encode_lt c b hbl

theorem unreserved_bounds (b : Nat) (h : isUnreservedByte b = true) :
    (65 ≤ b ∧ b ≤ 90) ∨ (97 ≤ b ∧ b ≤ 122) ∨ (48 ≤ b ∧ b ≤ 57) ∨
    b = 45 ∨ b = 95 ∨ b = 46 ∨ b = 126 := by
  simpa [isUnreservedByte] using h

theorem utf8Encode_ascii (b : Nat) (h : b < 128) : utf8Encode (Char.ofNat b) = [b] := by
  unfold utf8Encode
  rw [toNat_ofNat b (by omega)]
  simp [h]

theorem queryUnescape_escBytes (bs : List Nat) (h : ∀ b ∈ bs, b < 256) :
    queryUnescape ((bs.map escByte).flatten) = some bs := by
  induction bs with
  | nil => rfl
  | cons b bs ih =>
    have hb := h b (List.mem_cons_self b bs)
    have ih2 := ih (fun x hx => h x (List.mem_cons_of_mem b hx))
    simp only [List.map_cons, List.flatten_cons, List.append_assoc]
    by_cases hu : isUnreservedByte b
    · have hbd := unreserved_bounds b hu
      have hne37 : ¬Char.ofNat b = Char.ofNat 37 :=
        char_ne_of_toNat_ne _ 37 (by omega) (by rw [toNat_ofNat b (by omega)]; omega)
      have hne43 : ¬Char.ofNat b = Char.ofNat 43 :=
        char_ne_of_toNat_ne _ 43 (by omega) (by rw [toNat_ofNat b (by omega)]; omega)
      rw [show escByte b = [Char.ofNat b] from by simp [escByte, hu]]
      rw [List.cons_append, List.nil_append, queryUnescape.eq_def]
      dsimp only
      rw [if_neg hne37, if_neg hne43, ih2, utf8Encode_ascii b (by omega)]
      rfl
    · by_cases h32 : b = 32
      · subst h32
        rw [show escByte 32 = [Char.ofNat 43] from by simp [escByte, hu]]
        rw [List.cons_append, List.nil_append, queryUnescape.eq_def]
        dsimp only
        rw [if_neg (by decide), if_pos rfl, ih2]
        rfl
      · rw [show escByte b = [Char.ofNat 37, hexDigitUp (b / 16), hexDigitUp (b % 16)]
          from by simp [escByte, hu, h32]]
        simp only [List.cons_append, List.nil_append]
        rw [queryUnescape.eq_def]
        dsimp only
        rw [if_pos rfl]
        rw [hexVal_hexDigitUp (b / 16) (by omega), hexVal_hexDigitUp (b % 16) (by omega)]
        dsimp only
        rw [ih2]
        have hb16 : b / 16 * 16 + b % 16 = b := by omega
        rw [hb16]
        rfl

theorem queryUnescape_queryEscape (s : String) :
    queryUnescape (queryEscape s) = some (utf8Bytes s) :=
  queryUnescape_escBytes (utf8Bytes s) (utf8Bytes_lt s)

/-- Every character of an escaped query component differs from the
ampersand and the equals sign. -/
theorem queryEscape_chars (s : String) :
    ∀ c ∈ queryEscape s, c.toNat ≠ 38 ∧ c.toNat ≠ 61 := by
  intro c hc
  unfold queryEscape at hc
  rw [List.mem_flatten] at hc
  obtain ⟨l, hl, hcl⟩ := hc
  rw [List.mem_map] at hl
  obtain ⟨b, hbmem, rfl⟩ := hl
  have hb := utf8Bytes_lt s b hbmem
  by_cases hu : isUnreservedByte b
  · have hbd := unreserved_bounds b hu
    rw [show escByte b = [Char.ofNat b] from by simp [escByte, hu]] at hcl
    simp at hcl
    subst hcl
    rw [toNat_ofNat b (by omega)]
    omega
  · by_cases h32 : b = 32
    · subst h32
      rw [show escByte 32 = [Char.ofNat 43] from by simp [escByte, hu]] at hcl
      simp at hcl
      subst hcl
      constructor <;> decide
    · rw [show escByte b = [Char.ofNat 37, hexDigitUp (b / 16), hexDigitUp (b % 16)]
        from by simp [escByte, hu, h32]] at hcl
      simp at hcl
      rcases hcl with rfl | rfl | rfl
      · constructor <;> decide
      · unfold hexDigitUp
        split_ifs with hlt
        · rw [toNat_ofNat _ (by omega)]; omega
        · have : b / 16 < 16 := by omega
          rw [toNat_ofNat _ (by omega)]; omega
      · unfold hexDigitUp
        split_ifs with hlt
        · rw [toNat_ofNat _ (by omega)]; omega
        · have : b % 16 < 16 := by omega
          rw [toNat_ofNat _ (by omega)]; omega

/-! ## Splitting a query string back into its parameters -/

theorem afterQm_append (pre rest : List Char) (h : ∀ c ∈ pre, ¬c = Char.ofNat 63) :
    afterQm (pre ++ Char.ofNat 63 :: rest) = rest := by
  induction pre with
  | nil => simp [afterQm]
  | cons c cs ih =>
    have hc := h c (List.mem_cons_self c cs)
    rw [List.cons_append, afterQm.eq_def]
    simp [hc, ih (fun x hx => h x (List.mem_cons_of_mem c hx))]

theorem splitAmp_no_amp (seg : List Char) (h : ∀ c ∈ seg, ¬c = Char.ofNat 38) :
    splitAmp seg = [seg] := by
  induction seg with
  | nil => rfl
  | cons c cs ih =>
    have hc := h c (List.mem_cons_self c cs)
    rw [splitAmp.eq_def]
    simp [hc, ih (fun x hx => h x (List.mem_cons_of_mem c hx))]

theorem splitAmp_append (seg rest : List Char) (h : ∀ c ∈ seg, ¬c = Char.ofNat 38) :
    splitAmp (seg ++ Char.ofNat 38 :: rest) = seg :: splitAmp rest := by
  induction seg with
  | nil =>
    rw [List.nil_append, splitAmp.eq_def]
    simp
  | cons c cs ih =>
    have hc := h c (List.mem_cons_self c cs)
    rw [List.cons_append, splitAmp.eq_def]
    simp [hc, ih (fun x hx => h x (List.mem_cons_of_mem c hx))]

theorem splitAmp_joinAmp (x : List Char) (parts : List (List Char))
    (h : ∀ p ∈ x :: parts, ∀ c ∈ p, ¬c = Char.ofNat 38) :
    splitAmp (joinAmp (x :: parts)) = x :: parts := by
  induction parts generalizing x with
  | nil => exact splitAmp_no_amp x (h x (List.mem_cons_self x []))
  | cons y ys ih =>
    rw [show joinAmp (x :: y :: ys) = x ++ Char.ofNat 38 :: joinAmp (y :: ys) from rfl]
    rw [splitAmp_append x _ (h x (List.mem_cons_self x (y :: ys)))]
    rw [ih y (fun p hp => h p (List.mem_cons_of_mem x hp))]

theorem splitEq_append (k v : List Char) (h : ∀ c ∈ k, ¬c = Char.ofNat 61) :
    splitEq (k ++ Char.ofNat 61 :: v) = (k, v) := by
  induction k with
  | nil =>
    rw [List.nil_append, splitEq.eq_def]
    simp
  | cons c cs ih =>
    have hc := h c (List.mem_cons_self c cs)
    rw [List.cons_append, splitEq.eq_def]
    simp [hc, ih (fun x hx => h x (List.mem_cons_of_mem c hx))]

/-- The characters of one encoded parameter never include an ampersand. -/
theorem part_no_amp (a b : String) :
    ∀ c ∈ queryEscape a ++ Char.ofNat 61 :: queryEscape b, ¬c = Char.ofNat 38 := by
  intro c hc
  rcases List.mem_append.mp hc with hca | hcb
  · intro he
    apply (queryEscape_chars a c hca).1
    rw [he]
    decide
  · rcases List.mem_cons.mp hcb with rfl | hcb2
    · decide
    · intro he
      apply (queryEscape_chars b c hcb2).1
      rw [he]
      decide

/-- One encoded parameter splits at its equals sign into the escaped key
and the escaped value. -/
theorem splitEq_part (a b : String) :
    splitEq (queryEscape a ++ Char.ofNat 61 :: queryEscape b) = (queryEscape a, queryEscape b) := by
  apply splitEq_append
  intro c hc he
  apply (queryEscape_chars a c hc).2
  rw [he]
  decide

theorem findPred_self (key : String) :
    (queryUnescape (queryEscape key) == some (utf8Bytes key)) = true := by
  rw [queryUnescape_queryEscape]
  exact beq_self_eq_true _

theorem findPred_ne (a key : String) (hne : utf8Bytes a ≠ utf8Bytes key) :
    (queryUnescape (queryEscape a) == some (utf8Bytes key)) = false := by
  rw [queryUnescape_queryEscape]
  simp [hne]

theorem findPred_pos (key : String) (v : List Char) :
    (fun kv : List Char × List Char => queryUnescape kv.1 == some (utf8Bytes key))
      (queryEscape key, v) = true := by
  show (queryUnescape (queryEscape key) == some (utf8Bytes key)) = true
  rw [queryUnescape_queryEscape]
  exact beq_self_eq_true _

theorem findPred_neg (a key : String) (v : List Char) (hne : utf8Bytes a ≠ utf8Bytes key) :
    ¬((fun kv : List Char × List Char => queryUnescape kv.1 == some (utf8Bytes key))
      (queryEscape a, v) = true) := by
  show ¬((queryUnescape (queryEscape a) == some (utf8Bytes key)) = true)
  rw [queryUnescape_queryEscape]
  simp [hne]

theorem find_step_pos (key : String) (v : List Char) (rest : List (List Char × List Char)) :
    List.find? (fun kv => queryUnescape kv.1 == some (utf8Bytes key))
      ((queryEscape key, v) :: rest) = some (queryEscape key, v) :=
  List.find?_cons_of_pos _ (findPred_pos key v)

theorem find_step_neg (a key : String) (v : List Char) (rest : List (List Char × List Char))
    (hne : utf8Bytes a ≠ utf8Bytes key) :
    List.find? (fun kv => queryUnescape kv.1 == some (utf8Bytes key))
      ((queryEscape a, v) :: rest)
      = List.find? (fun kv => queryUnescape kv.1 == some (utf8Bytes key)) rest :=
  List.find?_cons_of_neg _ (findPred_neg a key v hne)

theorem scopes_foldl_acc (l : List String) (acc : List String) :
    l.foldl (fun a scope => a ++ [scope]) acc = acc ++ l := by
  induction l generalizing acc with
  | nil => simp
  | cons x xs ih => simp [ih]

theorem no_qm_authURL : ∀ c ∈ authURL.toList, ¬c = Char.ofNat 63 := by decide

/-- The authorization URL built by the oauth2 library, for nonempty client
id, redirect URL and state: it extends the fixed endpoint with a query
string whose client_id, redirect_uri and state parameters decode exactly to
the given strings. -/
theorem authCodeURL_query (clientKey secret callbackURL state : String) (scopes : List String)
    (hk : clientKey ≠ "") (hcb : callbackURL ≠ "") (hst : state ≠ "") :
    (∃ q, (AuthCodeURL (newConfig clientKey secret callbackURL scopes) state).toList
        = authURL.toList ++ Char.ofNat 63 :: q)
    ∧ queryParam (AuthCodeURL (newConfig clientKey secret callbackURL scopes) state)
        "client_id" = some (utf8Bytes clientKey)
    ∧ queryParam (AuthCodeURL (newConfig clientKey secret callbackURL scopes) state)
        "redirect_uri" = some (utf8Bytes callbackURL)
    ∧ queryParam (AuthCodeURL (newConfig clientKey secret callbackURL scopes) state)
        "state" = some (utf8Bytes state) := by
  have hcvk : condVal clientKey = [clientKey] := by simp [condVal, hk]
  have hcvcb : condVal callbackURL = [callbackURL] := by simp [condVal, hcb]
  have hcvst : condVal state = [state] := by simp [condVal, hst]
  have hcvcode : condVal "code" = ["code"] := by simp [condVal]
  by_cases hsc : String.intercalate " " scopes = ""
  · have hlist : (AuthCodeURL (newConfig clientKey secret callbackURL scopes) state).toList
        = authURL.toList ++ Char.ofNat 63 :: joinAmp
            [queryEscape "client_id" ++ Char.ofNat 61 :: queryEscape clientKey,
             queryEscape "redirect_uri" ++ Char.ofNat 61 :: queryEscape callbackURL,
             queryEscape "response_type" ++ Char.ofNat 61 :: queryEscape "code",
             queryEscape "state" ++ Char.ofNat 61 :: queryEscape state] := by
      unfold AuthCodeURL valuesEncode
      dsimp only
      simp only [newConfig, scopes_foldl_acc, List.nil_append, hsc, hcvk, hcvcb, hcvst, hcvcode]
      rw [show containsQm authURL = false from rfl]
      simp [condVal]
    have hsplit : (splitAmp (afterQm
        (AuthCodeURL (newConfig clientKey secret callbackURL scopes) state).toList)).map splitEq
        = [(queryEscape "client_id", queryEscape clientKey),
           (queryEscape "redirect_uri", queryEscape callbackURL),
           (queryEscape "response_type", queryEscape "code"),
           (queryEscape "state", queryEscape state)] := by
      rw [hlist, afterQm_append _ _ no_qm_authURL]
      rw [splitAmp_joinAmp _ _ (by
        intro p hp
        simp only [List.mem_cons, List.not_mem_nil, or_false] at hp
        rcases hp with rfl | rfl | rfl | rfl <;> exact part_no_amp _ _)]
      simp only [List.map_cons, List.map_nil, splitEq_part]
    refine ⟨⟨_, hlist⟩, ?_, ?_, ?_⟩
    all_goals (unfold queryParam; rw [hsplit]; dsimp only)
    · rw [find_step_pos]
      exact queryUnescape_queryEscape clientKey
    · rw [find_step_neg _ _ _ _ (by decide), find_step_pos]
      exact queryUnescape_queryEscape callbackURL
    · rw [find_step_neg _ _ _ _ (by decide), find_step_neg _ _ _ _ (by decide),
        find_step_neg _ _ _ _ (by decide), find_step_pos]
      exact queryUnescape_queryEscape state
  · have hlist : (AuthCodeURL (newConfig clientKey secret callbackURL scopes) state).toList
        = authURL.toList ++ Char.ofNat 63 :: joinAmp
            [queryEscape "client_id" ++ Char.ofNat 61 :: queryEscape clientKey,
             queryEscape "redirect_uri" ++ Char.ofNat 61 :: queryEscape callbackURL,
             queryEscape "response_type" ++ Char.ofNat 61 :: queryEscape "code",
             queryEscape "scope" ++ Char.ofNat 61 ::
               queryEscape (String.intercalate " " scopes),
             queryEscape "state" ++ Char.ofNat 61 :: queryEscape state] := by
      unfold AuthCodeURL valuesEncode
      dsimp only
      simp only [newConfig, scopes_foldl_acc, List.nil_append, hcvk, hcvcb, hcvst, hcvcode]
      rw [show containsQm authURL = false from rfl]
      simp [condVal, hsc]
    have hsplit : (splitAmp (afterQm
        (AuthCodeURL (newConfig clientKey secret callbackURL scopes) state).toList)).map splitEq
        = [(queryEscape "client_id", queryEscape clientKey),
           (queryEscape "redirect_uri", queryEscape callbackURL),
           (queryEscape "response_type", queryEscape "code"),
           (queryEscape "scope", queryEscape (String.intercalate " " scopes)),
           (queryEscape "state", queryEscape state)] := by
      rw [hlist, afterQm_append _ _ no_qm_authURL]
      rw [splitAmp_joinAmp _ _ (by
        intro p hp
        simp only [List.mem_cons, List.not_mem_nil, or_false] at hp
        rcases hp with rfl | rfl | rfl | rfl | rfl <;> exact part_no_amp _ _)]
      simp only [List.map_cons, List.map_nil, splitEq_part]
    refine ⟨⟨_, hlist⟩, ?_, ?_, ?_⟩
    all_goals (unfold queryParam; rw [hsplit]; dsimp only)
    · rw [find_step_pos]
      exact queryUnescape_queryEscape clientKey
    · rw [find_step_neg _ _ _ _ (by decide), find_step_pos]
      exact queryUnescape_queryEscape callbackURL
    · rw [find_step_neg _ _ _ _ (by decide), find_step_neg _ _ _ _ (by decide),
        find_step_neg _ _ _ _ (by decide), find_step_neg _ _ _ _ (by decide),
        find_step_pos]
      exact queryUnescape_queryEscape state

/-- Claim C6 (amended): for every (clientKey, secret, callbackURL, scopes)
tuple and state with clientKey, callbackURL and state nonempty, BeginAuth
yields no error and a Session whose only populated field is the
authorization URL, which points at the fixed authorization endpoint and
carries the exact client id, callback URL and state as query parameters
(compared as decoded bytes).  An empty component is omitted from the query
string by the oauth2 library, so the claim as stated fails for an empty
state - see the counterexample. -/
theorem beginAuth_url_params (clientKey secret callbackURL state : String)
    (scopes : List String) (hk : clientKey ≠ "") (hcb : callbackURL ≠ "") (hst : state ≠ "") :
    (BeginAuth (New clientKey secret callbackURL scopes) state).2 = none
    ∧ (BeginAuth (New clientKey secret callbackURL scopes) state).1.AccessToken = ""
    ∧ (BeginAuth (New clientKey secret callbackURL scopes) state).1.RefreshToken = ""
    ∧ (BeginAuth (New clientKey secret callbackURL scopes) state).1.ExpiresAt = 0
    ∧ (∃ q, (BeginAuth (New clientKey secret callbackURL scopes) state).1.AuthURL.toList
        = authURL.toList ++ Char.ofNat 63 :: q)
    ∧ queryParam (BeginAuth (New clientKey secret callbackURL scopes) state).1.AuthURL
        "client_id" = some (utf8Bytes clientKey)
    ∧ queryParam (BeginAuth (New clientKey secret callbackURL scopes) state).1.AuthURL
        "redirect_uri" = some (utf8Bytes callbackURL)
    ∧ queryParam (BeginAuth (New clientKey secret callbackURL scopes) state).1.AuthURL
        "state" = some (utf8Bytes state) := by
  have h := authCodeURL_query clientKey secret callbackURL state scopes hk hcb hst
  exact ⟨rfl, rfl, rfl, rfl, h.1, h.2.1, h.2.2.1, h.2.2.2⟩

theorem beginAuth_url_params_witness :
    queryParam (BeginAuth (New "k" "sec" "http://cb/x" ["em", "pr"]) "st").1.AuthURL
      "state" = some (utf8Bytes "st") :=
  (beginAuth_url_params "k" "sec" "http://cb/x" "st" ["em", "pr"] (by decide) (by decide)
    (by decide)).2.2.2.2.2.2.2

/-- Claim C6 counterexample: with the empty state string - a legitimate
state under the claim's quantifier - the authorization URL carries no state
parameter at all, because the oauth2 library omits empty values. -/
theorem beginAuth_empty_state_no_param :
    queryParam (BeginAuth (New "k" "sec" "cb" []) "").1.AuthURL "state" = none := rfl

end GothYahoo
